import Mathlib

/-!
Shallow embedding of the algorithmic core of the `nuke` desktop backends
(`tools/nuke-desktop/src-tauri/src/main.rs` and
`nuke-local/desktop-app/src-tauri/src/main.rs`):

* the heuristic vehicle-hint extraction engine (`extract_vehicle_hints`,
  `normalize_make`),
* the directory scanner (`scan_directories`) over an explicit model of a
  filesystem tree,
* the batched cloud sync processor (`sync_to_cloud`) with the network
  modelled as an oracle giving the outcome of each dispatched request,
* the per-item sync of the second backend (`sync_to_supabase`).

Paths and file names are modelled as Lean `String`s (lists of characters);
the repository only ever distinguishes ASCII case, so Unicode case folding
is modelled by ASCII case folding.  The Rust `f32` confidence score is
modelled exactly, in tenths: every value the code can produce is a sum of
the weight literals 0.3 and 0.5, each of which is a whole number of
tenths, and sums of at most four such weights are computed exactly both in
`f32` and in tenths, so the scaling `0.3 ↦ 3`, `0.5 ↦ 5` is an exact,
order-preserving rendering of the source's arithmetic (in particular
`confidence > 0.0` iff the tenths count is positive).
-/

/-- ASCII lower-casing of one character, as Rust `to_lowercase` acts on the
ASCII range (the only range the repository's tables use): code points
65..90 (`A`..`Z`) are shifted by 32, everything else is unchanged. -/
def asciiLower (c : Char) : Char :=
  if h : 65 ≤ c.toNat ∧ c.toNat ≤ 90 then
    Char.ofNatAux (c.toNat + 32) (Or.inl (by omega))
  else c

/-- ASCII upper-casing of one character, as Rust `to_uppercase` acts on the
ASCII range: code points 97..122 (`a`..`z`) are shifted down by 32. -/
def asciiUpper (c : Char) : Char :=
  if h : 97 ≤ c.toNat ∧ c.toNat ≤ 122 then
    Char.ofNatAux (c.toNat - 32) (Or.inl (by omega))
  else c

/-- Rust `str::to_lowercase` on the ASCII range. -/
def strLower (s : String) : String := String.mk (s.data.map asciiLower)

/-- Rust `str::to_uppercase` on the ASCII range. -/
def strUpper (s : String) : String := String.mk (s.data.map asciiUpper)

/-- A regex word character (`\w`) in the ASCII range: letters, digits, `_`.
The two patterns of the source use `\b`, the boundary between a word and a
non-word character. -/
def isWordChar (c : Char) : Bool := c.isAlphanum || c = '_'

/-- Substring containment on character lists: Rust `str::contains`. -/
def containsSub (hay needle : List Char) : Bool :=
  match hay with
  | [] => needle.isEmpty
  | _ :: rest => needle.isPrefixOf hay || containsSub rest needle

/-- `\b` holds before the current position given the previous character
(`none` at the start of the haystack). -/
def boundaryBefore : Option Char → Bool
  | none => true
  | some c => !isWordChar c

/-- `\b` holds after a match given the remaining characters. -/
def boundaryAfter : List Char → Bool
  | [] => true
  | c :: _ => !isWordChar c

/-- The year pattern `\b(19[0-9]{2}|20[0-3][0-9])\b` matches at the head of
`cs` (four characters of the right shape followed by a boundary). -/
def yearAt : List Char → Bool
  | c1 :: c2 :: c3 :: c4 :: rest =>
      ((c1 = '1' && c2 = '9' && c3.isDigit && c4.isDigit) ||
       (c1 = '2' && c2 = '0' && ('0' ≤ c3 && c3 ≤ '3') && c4.isDigit)) &&
      boundaryAfter rest
  | _ => false

/-- Leftmost match of the year pattern: scan positions left to right,
carrying the previous character for the leading `\b`; on a match return the
four matched characters (capture group 1 of the source's regex). -/
def findYearAux (prev : Option Char) : List Char → Option (List Char)
  | [] => none
  | c :: rest =>
      if boundaryBefore prev && yearAt (c :: rest) then
        some ((c :: rest).take 4)
      else
        findYearAux (some c) rest

/-- First match of `\b(19[0-9]{2}|20[0-3][0-9])\b` in `cs`. -/
def findYear (cs : List Char) : Option (List Char) := findYearAux none cs

/-- Membership in the character class `[A-HJ-NPR-Z0-9]` of the VIN pattern:
upper-case letters excluding I, O, Q, or a digit. -/
def isVinChar (c : Char) : Bool :=
  (('A' ≤ c && c ≤ 'Z') && !(c = 'I' || c = 'O' || c = 'Q')) || c.isDigit

/-- Take exactly `n` leading characters of the VIN class, returning them and
the rest of the haystack. -/
def vinTake : Nat → List Char → Option (List Char × List Char)
  | 0, rest => some ([], rest)
  | _ + 1, [] => none
  | n + 1, c :: rest =>
      if isVinChar c then
        (vinTake n rest).map (fun p => (c :: p.1, p.2))
      else
        none

/-- The VIN pattern `\b[A-HJ-NPR-Z0-9]{17}\b` matches at the head of `cs`:
seventeen class characters followed by a boundary. -/
def vinAt (cs : List Char) : Option (List Char) :=
  match vinTake 17 cs with
  | some (tok, rest) => if boundaryAfter rest then some tok else none
  | none => none

/-- Leftmost match of the VIN pattern, carrying the previous character for
the leading `\b`. -/
def findVinAux (prev : Option Char) : List Char → Option (List Char)
  | [] => none
  | c :: rest =>
      match (if boundaryBefore prev then vinAt (c :: rest) else none) with
      | some tok => some tok
      | none => findVinAux (some c) rest

/-- First match of `\b[A-HJ-NPR-Z0-9]{17}\b` in `cs`. -/
def findVin (cs : List Char) : Option (List Char) := findVinAux none cs

/-- The fixed ordered make table of `extract_vehicle_hints`. -/
def makes : List String :=
  ["chevrolet", "chevy", "ford", "dodge", "gmc", "toyota", "honda",
   "bmw", "mercedes", "porsche", "ferrari", "lamborghini", "audi",
   "volkswagen", "vw", "jeep", "ram", "nissan", "mazda", "subaru"]

/-- The fixed ordered model table of `extract_vehicle_hints`. -/
def models : List String :=
  ["c10", "c20", "k10", "k20", "k5", "blazer", "suburban", "silverado",
   "mustang", "f150", "f-150", "camaro", "corvette", "challenger",
   "charger", "911", "944", "carrera", "civic", "accord", "tacoma",
   "4runner", "wrangler", "bronco"]

/-- `normalize_make` of the source: special cases for "chevy" and "vw",
otherwise capitalize the first character. -/
def normalize_make (make : String) : String :=
  match make with
  | "chevy" => "Chevrolet"
  | "vw" => "Volkswagen"
  | _ =>
    match make.data with
    | [] => ""
    | c :: rest => String.mk (asciiUpper c :: rest)

/-- `let full_path = path.to_string_lossy().to_lowercase()` of
`extract_vehicle_hints`, as a character list. -/
def fullPathChars (path : String) : List Char := path.data.map asciiLower

/-- The year field set by `extract_vehicle_hints` (capture 1 of the year
regex on the lowercased path). -/
def yearOf (path : String) : Option String :=
  (findYear (fullPathChars path)).map String.mk

/-- The make field set by `extract_vehicle_hints`: first make token that is
a substring of the lowercased path, normalized. -/
def makeOf (path : String) : Option String :=
  (makes.find? (fun m => containsSub (fullPathChars path) m.data)).map
    normalize_make

/-- The model field set by `extract_vehicle_hints`: first model token that
is a substring of the lowercased path, upper-cased. -/
def modelOf (path : String) : Option String :=
  (models.find? (fun m => containsSub (fullPathChars path) m.data)).map
    strUpper

/-- The vin field set by `extract_vehicle_hints` (whole match of the VIN
regex on the lowercased path). -/
def vinOf (path : String) : Option String :=
  (findVin (fullPathChars path)).map String.mk

/-- The confidence accumulated by `extract_vehicle_hints`, in tenths:
+0.3 (= 3 tenths) for a year match, +0.3 for a make match, +0.3 for a
model match, +0.5 (= 5 tenths) for a VIN match, in the order of the
source. -/
def confidenceOf (path : String) : Nat :=
  (if (yearOf path).isSome then 3 else 0) +
  (if (makeOf path).isSome then 3 else 0) +
  (if (modelOf path).isSome then 3 else 0) +
  (if (vinOf path).isSome then 5 else 0)

/-- `VehicleHint` of the source (`confidence: f32` modelled exactly as a
count of tenths: 3 = 0.3, 5 = 0.5, 8 = 0.8, see the file comment). -/
structure VehicleHint where
  year : Option String
  make : Option String
  model : Option String
  vin : Option String
  confidence : Nat
  source : String
deriving DecidableEq, Repr

/-- `extract_vehicle_hints`: build the hint from the four checks and return
it only when the accumulated confidence is positive. -/
def extract_vehicle_hints (path : String) : Option VehicleHint :=
  if 0 < confidenceOf path then
    some
      { year := yearOf path
        make := makeOf path
        model := modelOf path
        vin := vinOf path
        confidence := confidenceOf path
        source := "filename" }
  else
    none

example : extract_vehicle_hints "1969_mustang.jpg" =
    some { year := none, make := none, model := some "MUSTANG", vin := none,
           confidence := 3, source := "filename" } := by decide

example : extract_vehicle_hints "notes.txt" = none := by decide

/-! ## Directory scanner (`scan_directories`) -/

/-- A node of the filesystem snapshot the scan walks over.  A file carries
the data the scan reads from it: byte size, modification time (seconds
since the epoch) and whether reading its metadata succeeds (the source
silently skips a file whose `std::fs::metadata` call fails).  Symbolic
links are absent because `scan_directories` sets `follow_links(false)`. -/
inductive FSEntry where
  | file (name : String) (size : Nat) (modified : Nat) (metaOk : Bool)
  | dir (name : String) (children : List FSEntry)

/-- The name of a node (the `file_name` of its path). -/
def FSEntry.name : FSEntry → String
  | .file n _ _ _ => n
  | .dir n _ => n

/-- One entry yielded by the `WalkDir` iterator: its joined path, its file
name, and the data of the node it points at. -/
structure WalkEntry where
  path : String
  fileName : String
  isFile : Bool
  size : Nat
  modified : Nat
  metaOk : Bool
deriving DecidableEq, Repr

/-- Join a parent path and a child name as `WalkDir` renders paths. -/
def joinPath (pre name : String) : String :=
  if pre = "" then name else pre ++ "/" ++ name

/-- The `WalkEntry` for the node `e` reached under the parent path `pre`. -/
def mkWalkEntry (pre : String) (e : FSEntry) : WalkEntry :=
  match e with
  | .file n s m ok =>
      { path := joinPath pre n, fileName := n, isFile := true,
        size := s, modified := m, metaOk := ok }
  | .dir n _ =>
      { path := joinPath pre n, fileName := n, isFile := false,
        size := 0, modified := 0, metaOk := true }

/-- Depth-first traversal of `WalkDir`: the node itself first, then its
children, descending only while the depth budget (`max_depth` minus the
current depth) is positive.  The iterator yields every entry up to
`max_depth`; in particular it still descends into directories the caller
chooses to skip -- `WalkDir` knows nothing of the hidden-name check. -/
def walkAux (fuel : Nat) (pre : String) (e : FSEntry) : List WalkEntry :=
  match fuel, e with
  | 0, e => [mkWalkEntry pre e]
  | Nat.succ f, e =>
      mkWalkEntry pre e ::
        (match e with
         | FSEntry.file _ _ _ _ => []
         | FSEntry.dir n cs =>
             cs.flatMap (fun c => walkAux f (joinPath pre n) c))

/-- `WalkDir::new(root).max_depth(d)`: the root is at depth 0. -/
def walk (maxDepth : Nat) (root : FSEntry) : List WalkEntry :=
  walkAux maxDepth "" root

/-- `IMAGE_EXTENSIONS` of the source. -/
def IMAGE_EXTENSIONS : List String :=
  ["jpg", "jpeg", "png", "gif", "heic", "heif", "webp"]

/-- `DOCUMENT_EXTENSIONS` of the source. -/
def DOCUMENT_EXTENSIONS : List String :=
  ["pdf", "doc", "docx", "txt", "rtf"]

/-- `SPREADSHEET_EXTENSIONS` of the source. -/
def SPREADSHEET_EXTENSIONS : List String :=
  ["csv", "xlsx", "xls", "numbers"]

/-- `ScanConfig` of the source.  The `paths` field (the root paths to scan)
is rendered, together with the filesystem state they resolve to, as the
separate `roots : List FSEntry` argument of `scan_directories` below. -/
structure ScanConfig where
  include_hidden : Bool
  max_depth : Option Nat
  include_images : Bool
  include_documents : Bool
  include_spreadsheets : Bool
deriving DecidableEq, Repr

/-- `ScanResult` of the source (`modified` is the decimal rendering of the
epoch-seconds value). -/
structure ScanResult where
  path : String
  filename : String
  file_type : String
  category : String
  size : Nat
  modified : String
  potential_vehicle : Option VehicleHint
deriving DecidableEq, Repr

/-- The characters after the last `.` of a name, if the name contains a
`.` at all. -/
def lastDotSplit : List Char → Option (List Char)
  | [] => none
  | c :: rest =>
      match lastDotSplit rest with
      | some e => some e
      | none => if c = '.' then some rest else none

/-- Rust `Path::extension()` on a file name: the portion after the final
`.`, or `none` when there is no `.`, when the only `.` is the leading
character, or for the special name `..`. -/
def extensionOf (name : String) : Option String :=
  if name = ".." then none
  else
    match name.data with
    | [] => none
    | _ :: rest => (lastDotSplit rest).map String.mk

/-- `path.extension().map(|e| e.to_string_lossy().to_lowercase()).unwrap_or_default()`
of the source. -/
def lowerExt (name : String) : String :=
  ((extensionOf name).map strLower).getD ""

/-- The `(category, include)` pair computed by `scan_directories` from the
lowercased extension and the config flags. -/
def categoryInclude (config : ScanConfig) (extension : String) :
    String × Bool :=
  if IMAGE_EXTENSIONS.contains extension then
    ("image", config.include_images)
  else if DOCUMENT_EXTENSIONS.contains extension then
    ("document", config.include_documents)
  else if SPREADSHEET_EXTENSIONS.contains extension then
    ("spreadsheet", config.include_spreadsheets)
  else
    ("unknown", false)

/-- `name.starts_with('.')` on the entry's file name. -/
def startsWithDot (name : String) : Bool :=
  match name.data with
  | [] => false
  | c :: _ => c = '.'

/-- The body of the `scan_directories` loop for one yielded entry: the
hidden-name check, the regular-file check, categorisation, the include
flag, the metadata read, and the hint extraction, in the order of the
source.  `none` means `continue`. -/
def processEntry (config : ScanConfig) (ent : WalkEntry) : Option ScanResult :=
  if !config.include_hidden && startsWithDot ent.fileName then none
  else if !ent.isFile then none
  else if !(categoryInclude config (lowerExt ent.fileName)).2 then none
  else if !ent.metaOk then none
  else
    some
      { path := ent.path
        filename := ent.fileName
        file_type := lowerExt ent.fileName
        category := (categoryInclude config (lowerExt ent.fileName)).1
        size := ent.size
        modified := toString ent.modified
        potential_vehicle := extract_vehicle_hints ent.path }

/-- `scan_directories`: walk every root with the configured depth bound
(default 10) and collect the admitted files in traversal order. -/
def scan_directories (config : ScanConfig) (roots : List FSEntry) :
    List ScanResult :=
  roots.flatMap (fun root =>
    (walk (config.max_depth.getD 10) root).filterMap (processEntry config))

/-! ## Batch sync processor (`sync_to_cloud`) -/

/-- The record built per hinted item of a batch (the `json!` object of the
source). -/
structure VehiclePayload where
  year : Option String
  make : Option String
  model : Option String
  vin : Option String
  description : String
deriving DecidableEq, Repr

/-- The payload for one scan result whose hint is `v`. -/
def payloadOf (f : ScanResult) (v : VehicleHint) : VehiclePayload :=
  { year := v.year, make := v.make, model := v.model, vin := v.vin,
    description := "Imported from " ++ f.filename }

/-- Chunking worker: peel one chunk of `n` elements per step.  `fuel`
only bounds the number of steps so that the recursion is structural; for
`n ≥ 1` each step consumes at least one element, so `fuel = l.length`
steps always suffice and the fuel never runs out. -/
def chunksFuel (n : Nat) : Nat → List α → List (List α)
  | _, [] => []
  | 0, _ :: _ => []
  | Nat.succ fuel, x :: xs =>
      (x :: xs).take n :: chunksFuel n fuel ((x :: xs).drop n)

/-- Rust `slice::chunks(n)` for `n > 0`: consecutive chunks of `n`
elements in order, the last possibly shorter.  The `n = 0` case never
arises: `chunks(0)` panics in Rust, which `sync_to_cloud` below renders
as `none` before chunking. -/
def chunksOf (n : Nat) (l : List α) : List (List α) :=
  chunksFuel n l.length l

/-- The `vehicles` list of one batch: the hinted items of the chunk,
transformed to payloads (the `filter_map` of the source). -/
def filteredPayloads (batch : List ScanResult) : List VehiclePayload :=
  batch.filterMap (fun f => f.potential_vehicle.map (payloadOf f))

/-- The non-empty payload lists `sync_to_cloud` actually dispatches, in
order: a chunk whose filtered payload list is empty is skipped with no
network call. -/
def syncDispatches (files : List ScanResult) (batch_size : Nat) :
    List (List VehiclePayload) :=
  (chunksOf batch_size files).filterMap (fun batch =>
    let vehicles := filteredPayloads batch
    if vehicles.isEmpty then none else some vehicles)

/-- The outcome of one dispatched network request, as `sync_to_cloud`
distinguishes them: a transport-level `Ok` whose status is a success, a
transport-level `Ok` with a non-success status (carrying the status text),
or a transport-level `Err` (carrying the error text). -/
inductive BatchOutcome where
  | success
  | httpError (status : String)
  | transportError (msg : String)
deriving DecidableEq, Repr

/-- The aggregate report `sync_to_cloud` serialises on return. -/
structure SyncReport where
  synced : Nat
  failed : Nat
  errors : List String
deriving DecidableEq, Repr

/-- Fold the dispatch outcomes into the report, mirroring the `match` of
the source: a success adds the batch's payload count to `synced`; a
non-success response or a transport error adds it to `failed` and appends
one formatted error string.  `i` numbers the network requests so the
oracle `net` can answer each one. -/
def syncFold (net : Nat → BatchOutcome) :
    List (List VehiclePayload) → Nat → SyncReport → SyncReport
  | [], _, report => report
  | vehicles :: rest, i, report =>
      let report' :=
        match net i with
        | .success =>
            { report with synced := report.synced + vehicles.length }
        | .httpError status =>
            { report with failed := report.failed + vehicles.length,
                          errors := report.errors ++ ["Batch failed: " ++ status] }
        | .transportError msg =>
            { report with failed := report.failed + vehicles.length,
                          errors := report.errors ++ ["Request error: " ++ msg] }
      syncFold net rest (i + 1) report'

/-- `sync_to_cloud`.  The network is the oracle `net`, giving the outcome
of the `i`-th dispatched request.  The outer `Option` renders Rust panic:
`files.chunks(0)` panics (`chunk_size` must be non-zero), so `batch_size
= 0` yields `none`.  The inner `Except` is the `Result<Value, String>` of
the signature; the body only ever produces `Except.ok`. -/
def sync_to_cloud (files : List ScanResult) (api_key : String)
    (batch_size : Nat) (net : Nat → BatchOutcome) :
    Option (Except String SyncReport) :=
  if batch_size = 0 then none
  else
    some (Except.ok
      (syncFold net (syncDispatches files batch_size) 0
        { synced := 0, failed := 0, errors := [] }))

/-! ## Per-item sync of the second backend (`sync_to_supabase`) -/

/-- `ExtractedData` of `nuke-local` (numeric fields modelled over ℤ and
ℚ; none of them is computed on). -/
structure ExtractedData where
  vin : Option String
  year : Option Int
  make : Option String
  model : Option String
  owner_name : Option String
  mileage : Option Int
  price : Option ℚ
  date : Option String
deriving DecidableEq, Repr

/-- `ExtractionResult` of `nuke-local` (`confidence: f32` modelled in ℚ;
it is only carried along, never computed on). -/
structure ExtractionResult where
  path : String
  document_type : String
  confidence : ℚ
  extracted : ExtractedData
  raw_response : String
deriving DecidableEq, Repr

/-- The `ImportQueueItem` posted per synced extraction (its `metadata`
json object carried as the three fields it is built from). -/
structure ImportQueueItem where
  url : String
  source : String
  priority : Int
  document_type : String
  confidence : ℚ
  extracted : ExtractedData
deriving DecidableEq, Repr

/-- The item `sync_to_supabase` builds for one extraction. -/
def mkImportItem (e : ExtractionResult) : ImportQueueItem :=
  { url := "file://" ++ e.path, source := "desktop_intake", priority := 5,
    document_type := e.document_type, confidence := e.confidence,
    extracted := e.extracted }

/-- The loop of `sync_to_supabase`: skip extractions without a VIN, post
the rest in order, and count a sync for every post whose transport-level
result is `Ok` (`resp.is_ok()` -- the HTTP status is not inspected).
Returns the final count and the posted items; `i` numbers the posts for
the oracle `net`. -/
def supabaseLoop (net : Nat → Bool) :
    List ExtractionResult → Nat → Nat → Nat × List ImportQueueItem
  | [], _, synced => (synced, [])
  | e :: rest, i, synced =>
      if e.extracted.vin.isNone then
        supabaseLoop net rest i synced
      else
        let ok := net i
        let r := supabaseLoop net rest (i + 1)
          (if ok then synced + 1 else synced)
        (r.1, mkImportItem e :: r.2)

/-- `sync_to_supabase`, instrumented with the list of items it posts (its
observable network effect).  The credential state is the pair of optional
`supabase_url` and `supabase_key` fields; if either is unset the function
returns the single error `"Supabase not configured"` before any work. -/
def sync_to_supabase (supabase_url supabase_key : Option String)
    (extractions : List ExtractionResult) (net : Nat → Bool) :
    Except String Nat × List ImportQueueItem :=
  match supabase_url with
  | none => (Except.error "Supabase not configured", [])
  | some _ =>
    match supabase_key with
    | none => (Except.error "Supabase not configured", [])
    | some _ =>
      let r := supabaseLoop net extractions 0 0
      (Except.ok r.1, r.2)

/-! ## Character-level lemmas -/

theorem charToNat_inj {c₁ c₂ : Char} (h : c₁.toNat = c₂.toNat) : c₁ = c₂ :=
  Char.ext (UInt32.ext h)

theorem toNat_ofNatAux (n : Nat) (h : n.isValidChar) :
    (Char.ofNatAux n h).toNat = n := rfl

theorem charLe_iff (c₁ c₂ : Char) : c₁ ≤ c₂ ↔ c₁.toNat ≤ c₂.toNat := Iff.rfl

theorem asciiLower_toNat (c : Char) :
    (asciiLower c).toNat =
      if 65 ≤ c.toNat ∧ c.toNat ≤ 90 then c.toNat + 32 else c.toNat := by
  unfold asciiLower
  split <;> simp [toNat_ofNatAux, *]

/-- Lower-casing never produces an upper-case ASCII letter. -/
theorem asciiLower_not_upper (c : Char) :
    ¬(65 ≤ (asciiLower c).toNat ∧ (asciiLower c).toNat ≤ 90) := by
  rw [asciiLower_toNat]
  split <;> omega

theorem isDigit_iff (c : Char) :
    c.isDigit = true ↔ 48 ≤ c.toNat ∧ c.toNat ≤ 57 := by
  simp [Char.isDigit]
  exact Iff.rfl

/-- A character of the VIN class that has been lower-cased can only be a
digit: the letter half of the class is upper-case only. -/
theorem isVinChar_lower_digit (c : Char)
    (h : isVinChar (asciiLower c) = true) : (asciiLower c).isDigit = true := by
  simp only [isVinChar, Bool.or_eq_true, Bool.and_eq_true,
    decide_eq_true_eq] at h
  rcases h with ⟨⟨h1, h2⟩, _⟩ | h'
  · exact absurd ⟨(charLe_iff _ _).mp h1, (charLe_iff _ _).mp h2⟩
      (asciiLower_not_upper c)
  · exact h'

/-! ## Lemmas about the VIN matcher -/

/-- Every character of a `vinTake` token is of the VIN class and comes
from the haystack. -/
theorem vinTake_spec :
    ∀ (n : Nat) (cs tok rest : List Char), vinTake n cs = some (tok, rest) →
      ∀ c ∈ tok, isVinChar c = true ∧ c ∈ cs := by
  intro n
  induction n with
  | zero =>
      intro cs tok rest h c hc
      simp [vinTake] at h
      obtain ⟨rfl, rfl⟩ := h
      simp at hc
  | succ m ih =>
      intro cs tok rest h c hc
      cases cs with
      | nil => simp [vinTake] at h
      | cons a as =>
          simp only [vinTake] at h
          split at h
          · rename_i ha
            rcases Option.map_eq_some'.mp h with ⟨p, hp, hpe⟩
            injection hpe with h1 h2
            subst h1
            subst h2
            rcases List.mem_cons.mp hc with rfl | hc'
            · exact ⟨ha, List.mem_cons_self _ _⟩
            · rcases ih as p.1 p.2 hp c hc' with ⟨h1, h2⟩
              exact ⟨h1, List.mem_cons_of_mem _ h2⟩
          · exact absurd h (by simp)

/-- Every character of a `vinAt` match is of the VIN class and comes from
the haystack. -/
theorem vinAt_spec (cs tok : List Char) (h : vinAt cs = some tok) :
    ∀ c ∈ tok, isVinChar c = true ∧ c ∈ cs := by
  unfold vinAt at h
  split at h
  · rename_i p hp
    split at h
    · cases h
      exact vinTake_spec 17 cs _ _ hp
    · cases h
  · cases h

/-- Every character of a `findVinAux` match is of the VIN class and comes
from the haystack. -/
theorem findVinAux_spec :
    ∀ (cs : List Char) (prev : Option Char) (tok : List Char),
      findVinAux prev cs = some tok →
      ∀ c ∈ tok, isVinChar c = true ∧ c ∈ cs := by
  intro cs
  induction cs with
  | nil => intro prev tok h; simp [findVinAux] at h
  | cons a as ih =>
      intro prev tok h c hc
      unfold findVinAux at h
      cases hm : (if boundaryBefore prev then vinAt (a :: as) else none) with
      | some t =>
          rw [hm] at h
          cases h
          have ht : vinAt (a :: as) = some tok := by
            by_cases hb : boundaryBefore prev
            · simpa [hb] using hm
            · simp [hb] at hm
          exact vinAt_spec _ _ ht c hc
      | none =>
          rw [hm] at h
          rcases ih (some a) tok h c hc with ⟨h1, h2⟩
          exact ⟨h1, List.mem_cons_of_mem _ h2⟩

/-- Every character of a `findVin` match is of the VIN class and comes
from the haystack. -/
theorem findVin_spec (cs tok : List Char) (h : findVin cs = some tok) :
    ∀ c ∈ tok, isVinChar c = true ∧ c ∈ cs :=
  findVinAux_spec cs none tok h

/-! ## Claim C2 -/

/-- C2: on the path `.../1969_Corvette_1G1YY22G965109876.jpg` the
extraction engine in fact returns year = none, make = none,
model = some "CORVETTE", vin = none and confidence 0.3 (3 tenths): the
17-character token is lower-cased to `1g1yy22g965109876` before matching,
and the VIN pattern's letter class is upper-case only, so the VIN check
never fires — contradicting the claimed vin = Some(token) and
confidence 0.8. -/
theorem extract_hints_on_corvette_vin_path :
    extract_vehicle_hints ".../1969_Corvette_1G1YY22G965109876.jpg" =
      some { year := none, make := none, model := some "CORVETTE",
             vin := none, confidence := 3, source := "filename" } := by
  decide

/-! ## Claim C3 -/

/-- C3: whenever the extraction engine returns a hint whose vin field is
set, the VIN string consists exclusively of decimal digits: matching is
performed on the lower-cased path, and the VIN pattern's letter class
`A-HJ-NPR-Z` is upper-case only, so only digits can ever match. -/
theorem vin_hint_all_digits (path : String) (h : VehicleHint) (v : String)
    (h1 : extract_vehicle_hints path = some h) (h2 : h.vin = some v) :
    v.data.all Char.isDigit = true := by
  unfold extract_vehicle_hints at h1
  split at h1
  · injection h1 with h1
    subst h1
    simp only at h2
    unfold vinOf at h2
    rcases Option.map_eq_some'.mp h2 with ⟨tok, htok, rfl⟩
    rw [List.all_eq_true]
    intro c hc
    rcases findVin_spec _ _ htok c (by simpa using hc) with ⟨hvin, hmem⟩
    unfold fullPathChars at hmem
    rcases List.mem_map.mp hmem with ⟨c₀, _, rfl⟩
    exact isVinChar_lower_digit c₀ hvin
  · cases h1

/-- Witness for C3 at a concrete input: the path
`12345678901234567.jpg` yields a hint whose vin is the all-digit token. -/
theorem vin_hint_all_digits_witness :
    ("12345678901234567" : String).data.all Char.isDigit = true :=
  vin_hint_all_digits "12345678901234567.jpg"
    { year := none, make := none, model := none,
      vin := some "12345678901234567", confidence := 5,
      source := "filename" }
    "12345678901234567" (by decide) rfl

/-! ## Claim C7 -/

/-- The accumulated confidence is positive iff at least one of the four
checks matched (each check contributes a positive weight). -/
theorem confidenceOf_pos_iff (path : String) :
    0 < confidenceOf path ↔
      ((yearOf path).isSome = true ∨ (makeOf path).isSome = true ∨
       (modelOf path).isSome = true ∨ (vinOf path).isSome = true) := by
  unfold confidenceOf
  cases hy : (yearOf path).isSome <;> cases hm : (makeOf path).isSome <;>
    cases hmo : (modelOf path).isSome <;> cases hv : (vinOf path).isSome <;>
      simp

/-- C7: the extraction engine returns a hint iff the accumulated
confidence after the four checks is strictly positive; every returned
hint has positive confidence and at least one of year/make/model/vin set;
and it returns nothing exactly when no check matched. -/
theorem extract_hints_some_iff_confidence_pos (path : String) :
    ((extract_vehicle_hints path).isSome = true ↔ 0 < confidenceOf path) ∧
    (∀ h : VehicleHint, extract_vehicle_hints path = some h →
      0 < h.confidence ∧
        (h.year.isSome = true ∨ h.make.isSome = true ∨
         h.model.isSome = true ∨ h.vin.isSome = true)) ∧
    (extract_vehicle_hints path = none ↔
      (yearOf path = none ∧ makeOf path = none ∧
       modelOf path = none ∧ vinOf path = none)) := by
  refine ⟨?_, ?_, ?_⟩
  · unfold extract_vehicle_hints
    split <;> simp [*]
  · intro h hh
    unfold extract_vehicle_hints at hh
    split at hh
    · rename_i hpos
      injection hh with hh
      subst hh
      exact ⟨hpos, by simpa using (confidenceOf_pos_iff path).mp hpos⟩
    · cases hh
  · have h1 : extract_vehicle_hints path = none ↔ ¬ 0 < confidenceOf path := by
      unfold extract_vehicle_hints
      split <;> simp [*]
    rw [h1, confidenceOf_pos_iff]
    constructor
    · intro hnd
      push_neg at hnd
      rcases hnd with ⟨hy, hm, hmo, hv⟩
      exact ⟨Option.not_isSome_iff_eq_none.mp hy,
             Option.not_isSome_iff_eq_none.mp hm,
             Option.not_isSome_iff_eq_none.mp hmo,
             Option.not_isSome_iff_eq_none.mp hv⟩
    · rintro ⟨hy, hm, hmo, hv⟩ hd
      rcases hd with h | h | h | h <;> simp [hy, hm, hmo, hv] at h

/-! ## Concrete fixtures used by counterexamples and witnesses -/

/-- A config with hidden entries excluded and every category admitted. -/
def cfgHidden : ScanConfig :=
  { include_hidden := false, max_depth := none, include_images := true,
    include_documents := true, include_spreadsheets := true }

/-- A root whose hidden directory `.hidden` holds a plainly named image. -/
def fsHidden : FSEntry :=
  .dir "photos" [.dir ".hidden" [.file "car.jpg" 100 5 true]]

/-- The scan result the walk produces for `photos/.hidden/car.jpg`. -/
def carResult : ScanResult :=
  { path := "photos/.hidden/car.jpg", filename := "car.jpg",
    file_type := "jpg", category := "image", size := 100, modified := "5",
    potential_vehicle := none }

/-! ## Claim C1 -/

/-- C1 counterexample: with `include_hidden = false`, scanning a tree
whose hidden directory `.hidden` contains the plainly named file
`car.jpg` still returns that file.  The hidden-name check only skips the
directory's own entry; the walk still descends into it, so hidden
directories do **not** prune their subtree. -/
theorem scan_hidden_dir_subtree_not_pruned :
    scan_directories cfgHidden [fsHidden] = [carResult] := by decide

/-- C1 amended: with `include_hidden = false` the scan output contains no
entry whose own name starts with `.` (but files under hidden directories
whose own names do not start with `.` are still returned). -/
theorem scan_excludes_dot_named_entries (config : ScanConfig)
    (roots : List FSEntry) (r : ScanResult)
    (hhid : config.include_hidden = false)
    (hr : r ∈ scan_directories config roots) :
    startsWithDot r.filename = false := by
  unfold scan_directories at hr
  rcases List.mem_flatMap.mp hr with ⟨root, _, hr'⟩
  rcases List.mem_filterMap.mp hr' with ⟨ent, _, hpe⟩
  unfold processEntry at hpe
  rw [hhid] at hpe
  split at hpe
  · cases hpe
  · rename_i hcond
    have hdot : startsWithDot ent.fileName = false := by
      by_cases hs : startsWithDot ent.fileName = true
      · exact absurd (by simp [hs]) hcond
      · simpa using hs
    split at hpe
    · cases hpe
    · split at hpe
      · cases hpe
      · split at hpe
        · cases hpe
        · injection hpe with hpe
          subst hpe
          exact hdot

/-- CI witness for the amended C1 at the concrete tree: the returned
file's own name does not start with a dot. -/
theorem scan_excludes_dot_named_entries_witness :
    startsWithDot carResult.filename = false :=
  scan_excludes_dot_named_entries cfgHidden [fsHidden] carResult rfl
    (by decide)

/-! ## Claim C6 -/

/-- C6: a scan result's category always has its include flag set, so a
category whose flag is false never appears, and category `"unknown"`
never appears at all. -/
theorem scan_category_flags (config : ScanConfig) (roots : List FSEntry)
    (r : ScanResult) (hr : r ∈ scan_directories config roots) :
    (config.include_images = false → r.category ≠ "image") ∧
    (config.include_documents = false → r.category ≠ "document") ∧
    (config.include_spreadsheets = false → r.category ≠ "spreadsheet") ∧
    r.category ≠ "unknown" := by
  unfold scan_directories at hr
  rcases List.mem_flatMap.mp hr with ⟨root, _, hr'⟩
  rcases List.mem_filterMap.mp hr' with ⟨ent, _, hpe⟩
  unfold processEntry at hpe
  split at hpe
  · cases hpe
  · split at hpe
    · cases hpe
    · split at hpe
      · cases hpe
      · split at hpe
        · cases hpe
        · rename_i hinc _
          injection hpe with hpe
          subst hpe
          have hinc' : (categoryInclude config (lowerExt ent.fileName)).2 = true := by
            revert hinc
            cases (categoryInclude config (lowerExt ent.fileName)).2 <;> simp
          unfold categoryInclude at hinc' ⊢
          by_cases h1 : IMAGE_EXTENSIONS.contains (lowerExt ent.fileName) = true
          · rw [if_pos h1] at hinc' ⊢
            exact ⟨fun hf => absurd hinc' (by rw [hf]; decide),
                   fun _ => by simp, fun _ => by simp, by simp⟩
          · rw [if_neg h1] at hinc' ⊢
            by_cases h2 : DOCUMENT_EXTENSIONS.contains (lowerExt ent.fileName) = true
            · rw [if_pos h2] at hinc' ⊢
              exact ⟨fun _ => by simp,
                     fun hf => absurd hinc' (by rw [hf]; decide),
                     fun _ => by simp, by simp⟩
            · rw [if_neg h2] at hinc' ⊢
              by_cases h3 :
                  SPREADSHEET_EXTENSIONS.contains (lowerExt ent.fileName) = true
              · rw [if_pos h3] at hinc' ⊢
                exact ⟨fun _ => by simp, fun _ => by simp,
                       fun hf => absurd hinc' (by rw [hf]; decide), by simp⟩
              · rw [if_neg h3] at hinc'
                exact absurd hinc' (by decide)

/-- C6 witness at the concrete tree. -/
theorem scan_category_flags_witness :
    (cfgHidden.include_images = false → carResult.category ≠ "image") ∧
    (cfgHidden.include_documents = false → carResult.category ≠ "document") ∧
    (cfgHidden.include_spreadsheets = false →
      carResult.category ≠ "spreadsheet") ∧
    carResult.category ≠ "unknown" :=
  scan_category_flags cfgHidden [fsHidden] carResult (by decide)

/-! ## Claim C4 -/

/-- A hint shared by the seven sync fixtures. -/
def hintFix : VehicleHint :=
  { year := none, make := none, model := some "CORVETTE", vin := none,
    confidence := 3, source := "filename" }

/-- The `i`-th hinted sync fixture. -/
def syncItem (i : Nat) : ScanResult :=
  { path := "p" ++ toString i, filename := "f" ++ toString i,
    file_type := "jpg", category := "image", size := 1, modified := "0",
    potential_vehicle := some hintFix }

/-- Seven hinted items. -/
def sevenItems : List ScanResult :=
  [syncItem 1, syncItem 2, syncItem 3, syncItem 4, syncItem 5, syncItem 6,
   syncItem 7]

/-- A network where exactly the second dispatch (index 1) fails with a
non-success status and every other dispatch succeeds. -/
def failSecond : Nat → BatchOutcome := fun i =>
  if i = 1 then BatchOutcome.httpError "500 Internal Server Error"
  else BatchOutcome.success

/-- C4: with 7 hinted items and batch size 3, exactly three batches of
sizes 3, 3, 1 are dispatched in input order; when exactly the second
dispatch fails, the report is synced = 4, failed = 3 with one error
entry — every item of the failed batch counts as failed, and processing
continues through the remaining batch. -/
theorem sync_seven_items_batch3_second_fails :
    (syncDispatches sevenItems 3).map List.length = [3, 3, 1] ∧
    sync_to_cloud sevenItems "key" 3 failSecond =
      some (Except.ok
        { synced := 4, failed := 3,
          errors := ["Batch failed: 500 Internal Server Error"] }) :=
  ⟨by decide, rfl⟩

/-! ## Claim C5 -/

/-- Every element of every chunk comes from the chunked list. -/
theorem chunksFuel_sublists {α : Type} (n : Nat) :
    ∀ (fuel : Nat) (l c : List α), c ∈ chunksFuel n fuel l →
      ∀ x ∈ c, x ∈ l := by
  intro fuel
  induction fuel with
  | zero =>
      intro l c hc x hx
      cases l <;> simp [chunksFuel] at hc
  | succ m ih =>
      intro l c hc x hx
      cases l with
      | nil => simp [chunksFuel] at hc
      | cons a as =>
          simp only [chunksFuel] at hc
          rcases List.mem_cons.mp hc with rfl | hc'
          · exact List.take_subset _ _ hx
          · exact List.drop_subset _ _ (ih _ c hc' x hx)

/-- Every element of every chunk comes from the chunked list. -/
theorem chunksOf_sublists {α : Type} (n : Nat) (l c : List α)
    (hc : c ∈ chunksOf n l) : ∀ x ∈ c, x ∈ l :=
  chunksFuel_sublists n l.length l c hc

/-- The number of dispatched batches equals the number of chunks whose
filtered payload list is non-empty. -/
theorem syncDispatches_length (files : List ScanResult) (batch_size : Nat) :
    (syncDispatches files batch_size).length =
      (chunksOf batch_size files).countP
        (fun batch => !(filteredPayloads batch).isEmpty) := by
  unfold syncDispatches
  generalize chunksOf batch_size files = L
  induction L with
  | nil => simp
  | cons b bs ih =>
      by_cases he : filteredPayloads b = [] <;>
        simp [List.filterMap_cons, he, List.countP_cons] <;> simpa using ih

/-- C5: every dispatched payload batch is non-empty and each of its
payloads comes from an input item that carries a hint; a chunk whose
filtered payload list is empty is dispatched nowhere (the dispatch count
equals the count of chunks with a non-empty filtered list). -/
theorem sync_dispatches_only_hinted (files : List ScanResult)
    (batch_size : Nat) :
    (∀ vs ∈ syncDispatches files batch_size, vs ≠ [] ∧
      ∀ p ∈ vs, ∃ f, f ∈ files ∧
        ∃ v, f.potential_vehicle = some v ∧ p = payloadOf f v) ∧
    (syncDispatches files batch_size).length =
      (chunksOf batch_size files).countP
        (fun batch => !(filteredPayloads batch).isEmpty) := by
  refine ⟨?_, syncDispatches_length files batch_size⟩
  intro vs hvs
  unfold syncDispatches at hvs
  rcases List.mem_filterMap.mp hvs with ⟨batch, hbatch, hg⟩
  simp only at hg
  split at hg
  · cases hg
  · rename_i hne
    injection hg with hg
    subst hg
    constructor
    · intro hnil
      rw [hnil] at hne
      simp at hne
    · intro p hp
      unfold filteredPayloads at hp
      rcases List.mem_filterMap.mp hp with ⟨f, hf, hfp⟩
      rcases Option.map_eq_some'.mp hfp with ⟨v, hv, rfl⟩
      exact ⟨f, chunksOf_sublists batch_size files batch hbatch f hf,
        v, hv, rfl⟩

/-! ## Claim C9 -/

/-- C9: when either half of the credential is missing, `sync_to_supabase`
returns the single error "Supabase not configured" immediately: nothing
is posted and the synced count is untouched. -/
theorem sync_to_supabase_unconfigured (supabase_url supabase_key : Option String)
    (extractions : List ExtractionResult) (net : Nat → Bool)
    (h : supabase_url = none ∨ supabase_key = none) :
    sync_to_supabase supabase_url supabase_key extractions net =
      (Except.error "Supabase not configured", []) := by
  rcases h with rfl | rfl
  · rfl
  · unfold sync_to_supabase
    cases supabase_url <;> rfl

/-- C9 witness at a concrete unconfigured state. -/
theorem sync_to_supabase_unconfigured_witness :
    sync_to_supabase none none
        [{ path := "a.jpg", document_type := "title", confidence := 1,
           extracted := { vin := some "X", year := none, make := none,
                          model := none, owner_name := none, mileage := none,
                          price := none, date := none },
           raw_response := "" }] (fun _ => true) =
      (Except.error "Supabase not configured", []) :=
  sync_to_supabase_unconfigured none none _ _ (Or.inl rfl)

/-! ## Claim C10 -/

/-- C10 counterexample: at `batch_size = 0` the Rust `files.chunks(0)`
call panics (`chunk_size` must be non-zero), so the function does not
return at all — rendered as `none` in the embedding — rather than
returning the Ok variant. -/
theorem sync_to_cloud_batch_zero_panics :
    sync_to_cloud [] "" 0 (fun _ => BatchOutcome.success) = none := rfl

/-- C10 amended: for every non-zero batch size (and any files, key and
network behaviour) `sync_to_cloud` returns the Ok variant carrying a
report; the Err branch of its Result is never produced. -/
theorem sync_to_cloud_always_ok (files : List ScanResult) (api_key : String)
    (batch_size : Nat) (net : Nat → BatchOutcome)
    (hbs : batch_size ≠ 0) :
    ∃ report, sync_to_cloud files api_key batch_size net =
      some (Except.ok report) := by
  unfold sync_to_cloud
  rw [if_neg hbs]
  exact ⟨_, rfl⟩

/-- C10 witness at a concrete input with a failing network: the result is
still the Ok variant. -/
theorem sync_to_cloud_always_ok_witness :
    ∃ report, sync_to_cloud sevenItems "key" 2
        (fun _ => BatchOutcome.transportError "connection refused") =
      some (Except.ok report) :=
  sync_to_cloud_always_ok sevenItems "key" 2 _ (by decide)

/-! ## Claim C8 -/

/-- Lower-casing fixes `.` and nothing else maps to `.`. -/
theorem asciiLower_dot_iff (c : Char) : asciiLower c = '.' ↔ c = '.' := by
  unfold asciiLower
  split
  · rename_i h
    constructor
    · intro he
      have h46 : Char.toNat '.' = 46 := rfl
      have := congrArg Char.toNat he
      rw [toNat_ofNatAux, h46] at this
      omega
    · intro he
      subst he
      exact absurd h (by decide)
  · exact Iff.rfl

/-- `lastDotSplit` commutes with lower-casing, because lower-casing
preserves which characters are dots. -/
theorem lastDotSplit_map (cs : List Char) :
    lastDotSplit (cs.map asciiLower) =
      (lastDotSplit cs).map (List.map asciiLower) := by
  induction cs with
  | nil => rfl
  | cons c rest ih =>
      simp only [List.map_cons, lastDotSplit, ih]
      cases h : lastDotSplit rest with
      | some e => simp
      | none =>
          by_cases hc : c = '.'
          · subst hc
            simp [show asciiLower '.' = '.' from by decide]
          · have hc' : asciiLower c ≠ '.' :=
              fun he => hc ((asciiLower_dot_iff c).mp he)
            simp [hc, hc']

/-- A string is `".."` exactly when its lower-cased character list is
`['.', '.']`. -/
theorem eq_dotdot_iff (s : String) :
    s = ".." ↔ s.data.map asciiLower = ['.', '.'] := by
  obtain ⟨l⟩ := s
  constructor
  · intro hs
    rw [hs]
    decide
  · intro hm
    cases l with
    | nil => simp at hm
    | cons a l' =>
        cases l' with
        | nil => simp at hm
        | cons b l'' =>
            cases l'' with
            | nil =>
                simp only [List.map_cons, List.map_nil] at hm
                injection hm with ha hm'
                injection hm' with hb
                rw [(asciiLower_dot_iff a).mp ha, (asciiLower_dot_iff b).mp hb]
            | cons u l''' => simp at hm

/-- The lower-cased extension depends only on the lower-cased character
list of the file name. -/
theorem lowerExt_map_eq (s t : String)
    (h : s.data.map asciiLower = t.data.map asciiLower) :
    lowerExt s = lowerExt t := by
  have key : ∀ u : List Char,
      ((lastDotSplit u).map String.mk).map strLower =
        (lastDotSplit (u.map asciiLower)).map String.mk := by
    intro u
    rw [lastDotSplit_map]
    cases lastDotSplit u <;> rfl
  unfold lowerExt extensionOf
  by_cases hs : s = ".."
  · have ht : t = ".." := by
      rw [eq_dotdot_iff] at hs ⊢
      rw [← h, hs]
    rw [if_pos hs, if_pos ht]
  · have ht : t ≠ ".." := by
      intro hteq
      apply hs
      rw [eq_dotdot_iff] at hteq ⊢
      rw [h, hteq]
    rw [if_neg hs, if_neg ht]
    cases hsd : s.data with
    | nil =>
        have htd : t.data = [] := by
          rw [hsd] at h
          simpa using h.symm
        rw [htd]
    | cons a as =>
        cases htd : t.data with
        | nil =>
            rw [hsd, htd] at h
            simp at h
        | cons b bs =>
            rw [hsd, htd] at h
            simp only [List.map_cons, List.cons.injEq] at h
            show (((lastDotSplit as).map String.mk).map strLower).getD "" =
              (((lastDotSplit bs).map String.mk).map strLower).getD ""
            rw [key as, key bs, h.2]

/-- The category computed by the scanner follows the fixed extension
table, whatever the config flags. -/
theorem categoryInclude_fst_eq (config : ScanConfig) (ext : String) :
    ((categoryInclude config ext).1 = "image" ↔ ext ∈ IMAGE_EXTENSIONS) ∧
    ((categoryInclude config ext).1 = "document" ↔
      ext ∈ DOCUMENT_EXTENSIONS) ∧
    ((categoryInclude config ext).1 = "spreadsheet" ↔
      ext ∈ SPREADSHEET_EXTENSIONS) ∧
    ((categoryInclude config ext).1 = "unknown" ↔
      (ext ∉ IMAGE_EXTENSIONS ∧ ext ∉ DOCUMENT_EXTENSIONS ∧
       ext ∉ SPREADSHEET_EXTENSIONS)) := by
  unfold categoryInclude
  by_cases h1 : IMAGE_EXTENSIONS.contains ext = true
  · rw [if_pos h1]
    have h1' : ext ∈ IMAGE_EXTENSIONS := by simpa using h1
    have hd : ext ∉ DOCUMENT_EXTENSIONS := by
      have := h1'
      simp only [IMAGE_EXTENSIONS, List.mem_cons, List.not_mem_nil,
        or_false] at this
      rcases this with rfl | rfl | rfl | rfl | rfl | rfl | rfl <;> decide
    have hsp : ext ∉ SPREADSHEET_EXTENSIONS := by
      have := h1'
      simp only [IMAGE_EXTENSIONS, List.mem_cons, List.not_mem_nil,
        or_false] at this
      rcases this with rfl | rfl | rfl | rfl | rfl | rfl | rfl <;> decide
    exact ⟨⟨fun _ => h1', fun _ => rfl⟩,
           ⟨fun hx => absurd hx (by decide : ("image" : String) ≠ "document"),
            fun hx => absurd hx hd⟩,
           ⟨fun hx =>
              absurd hx (by decide : ("image" : String) ≠ "spreadsheet"),
            fun hx => absurd hx hsp⟩,
           ⟨fun hx => absurd hx (by decide : ("image" : String) ≠ "unknown"),
            fun hx => absurd h1' hx.1⟩⟩
  · rw [if_neg h1]
    have h1' : ext ∉ IMAGE_EXTENSIONS := by simpa using h1
    by_cases h2 : DOCUMENT_EXTENSIONS.contains ext = true
    · rw [if_pos h2]
      have h2' : ext ∈ DOCUMENT_EXTENSIONS := by simpa using h2
      have hsp : ext ∉ SPREADSHEET_EXTENSIONS := by
        have := h2'
        simp only [DOCUMENT_EXTENSIONS, List.mem_cons, List.not_mem_nil,
          or_false] at this
        rcases this with rfl | rfl | rfl | rfl | rfl <;> decide
      exact ⟨⟨fun hx =>
                absurd hx (by decide : ("document" : String) ≠ "image"),
              fun hx => absurd hx h1'⟩,
             ⟨fun _ => h2', fun _ => rfl⟩,
             ⟨fun hx =>
                absurd hx (by decide : ("document" : String) ≠ "spreadsheet"),
              fun hx => absurd hx hsp⟩,
             ⟨fun hx =>
                absurd hx (by decide : ("document" : String) ≠ "unknown"),
              fun hx => absurd h2' hx.2.1⟩⟩
    · rw [if_neg h2]
      have h2' : ext ∉ DOCUMENT_EXTENSIONS := by simpa using h2
      by_cases h3 : SPREADSHEET_EXTENSIONS.contains ext = true
      · rw [if_pos h3]
        have h3' : ext ∈ SPREADSHEET_EXTENSIONS := by simpa using h3
        exact ⟨⟨fun hx =>
                  absurd hx (by decide : ("spreadsheet" : String) ≠ "image"),
                fun hx => absurd hx h1'⟩,
               ⟨fun hx =>
                  absurd hx
                    (by decide : ("spreadsheet" : String) ≠ "document"),
                fun hx => absurd hx h2'⟩,
               ⟨fun _ => h3', fun _ => rfl⟩,
               ⟨fun hx =>
                  absurd hx (by decide : ("spreadsheet" : String) ≠ "unknown"),
                fun hx => absurd h3' hx.2.2⟩⟩
      · rw [if_neg h3]
        have h3' : ext ∉ SPREADSHEET_EXTENSIONS := by simpa using h3
        exact ⟨⟨fun hx =>
                  absurd hx (by decide : ("unknown" : String) ≠ "image"),
                fun hx => absurd hx h1'⟩,
               ⟨fun hx =>
                  absurd hx (by decide : ("unknown" : String) ≠ "document"),
                fun hx => absurd hx h2'⟩,
               ⟨fun hx =>
                  absurd hx (by decide : ("unknown" : String) ≠ "spreadsheet"),
                fun hx => absurd hx h3'⟩,
               ⟨fun _ => ⟨h1', h2', h3'⟩, fun _ => rfl⟩⟩

/-- C8: two file names with the same lower-cased character list (in
particular, names differing only in letter case) receive the same
category, and the mapping from the lower-cased extension to the category
follows the fixed table: image for jpg/jpeg/png/gif/heic/heif/webp,
document for pdf/doc/docx/txt/rtf, spreadsheet for csv/xlsx/xls/numbers,
unknown for anything else. -/
theorem category_case_insensitive_table (config : ScanConfig)
    (s t : String)
    (h : s.data.map asciiLower = t.data.map asciiLower) :
    (categoryInclude config (lowerExt s)).1 =
      (categoryInclude config (lowerExt t)).1 ∧
    ((categoryInclude config (lowerExt s)).1 = "image" ↔
      lowerExt s ∈ IMAGE_EXTENSIONS) ∧
    ((categoryInclude config (lowerExt s)).1 = "document" ↔
      lowerExt s ∈ DOCUMENT_EXTENSIONS) ∧
    ((categoryInclude config (lowerExt s)).1 = "spreadsheet" ↔
      lowerExt s ∈ SPREADSHEET_EXTENSIONS) ∧
    ((categoryInclude config (lowerExt s)).1 = "unknown" ↔
      (lowerExt s ∉ IMAGE_EXTENSIONS ∧ lowerExt s ∉ DOCUMENT_EXTENSIONS ∧
       lowerExt s ∉ SPREADSHEET_EXTENSIONS)) :=
  ⟨congrArg (fun e => (categoryInclude config e).1) (lowerExt_map_eq s t h),
   categoryInclude_fst_eq config (lowerExt s)⟩

/-- C8 witness: `IMAGE.JPG` and `image.jpg` receive the same category
(both are images). -/
theorem category_case_insensitive_table_witness :
    (categoryInclude cfgHidden (lowerExt "IMAGE.JPG")).1 =
      (categoryInclude cfgHidden (lowerExt "image.jpg")).1 ∧
    ((categoryInclude cfgHidden (lowerExt "IMAGE.JPG")).1 = "image" ↔
      lowerExt "IMAGE.JPG" ∈ IMAGE_EXTENSIONS) ∧
    ((categoryInclude cfgHidden (lowerExt "IMAGE.JPG")).1 = "document" ↔
      lowerExt "IMAGE.JPG" ∈ DOCUMENT_EXTENSIONS) ∧
    ((categoryInclude cfgHidden (lowerExt "IMAGE.JPG")).1 = "spreadsheet" ↔
      lowerExt "IMAGE.JPG" ∈ SPREADSHEET_EXTENSIONS) ∧
    ((categoryInclude cfgHidden (lowerExt "IMAGE.JPG")).1 = "unknown" ↔
      (lowerExt "IMAGE.JPG" ∉ IMAGE_EXTENSIONS ∧
       lowerExt "IMAGE.JPG" ∉ DOCUMENT_EXTENSIONS ∧
       lowerExt "IMAGE.JPG" ∉ SPREADSHEET_EXTENSIONS)) :=
  category_case_insensitive_table cfgHidden "IMAGE.JPG" "image.jpg"
    (by decide)
